import Mathlib

/-
  Shallow embedding of the fuzzing-core of the repository (ClusterFuzz):
  the libFuzzer launcher and engine adapter, the engine registry, the seed
  corpus unpacking helper, and the progression bisection task.  Each
  definition is translated from the corresponding Python function in the
  source tree; helpers that live outside the provided source files are
  modelled from the specification and marked as such in their doc comments.
-/

namespace ClusterFuzz

/-! ### Basic character and string helpers -/

/-- Whitespace test matching the Python regex class for whitespace. -/
def isWsChar (c : Char) : Bool :=
  c = ' ' || c = '\t' || c = '\n' || c = '\r' || c = '\x0b' || c = '\x0c'

/-- Hexadecimal digit test matching the characters of the Python constant
string.hexdigits, that is 0-9, a-f and A-F. -/
def isHexDigitChar (c : Char) : Bool :=
  c.isDigit || ('a' ≤ c && c ≤ 'f') || ('A' ≤ c && c ≤ 'F')

/-- Characters allowed in a stat name by the regex class A-Za-z_ . -/
def isStatNameChar (c : Char) : Bool :=
  ('a' ≤ c && c ≤ 'z') || ('A' ≤ c && c ≤ 'Z') || c = '_'

/-- Numeric value of a list of decimal digit characters, as Python int(). -/
def digitsToNat (l : List Char) : Nat :=
  l.foldl (fun acc c => acc * 10 + (c.toNat - '0'.toNat)) 0

/-- Boolean test that one string starts with another, computed on the
underlying character lists. -/
def strStartsWith (s pre : String) : Bool :=
  pre.toList.isPrefixOf s.toList

/-- Boolean test that one string ends with another, computed on the
underlying character lists. -/
def strEndsWith (s suf : String) : Bool :=
  suf.toList.isSuffixOf s.toList

/-- Drop the first n characters of a string. -/
def strDropLen (s : String) (n : Nat) : String :=
  String.mk (s.toList.drop n)

/-- Python style zero padding to width sixteen, the format 016d used for
names of unpacked seed corpus entries. -/
def zeroPad16 (n : Nat) : String :=
  String.mk (List.replicate (16 - (toString n).toList.length) '0' ++ (toString n).toList)

/-! ### launcher.is_sha1_hash and launcher.move_mergeable_units

Translated from src/src/python/bot/fuzzers/libFuzzer/launcher.py.  A
directory is modelled as the list of base names of the files it holds. -/

/-- Translation of launcher.is_sha1_hash: the name has length forty and
every character is a hexadecimal digit. -/
def is_sha1_hash (possible_hash : String) : Bool :=
  possible_hash.toList.length = 40 && possible_hash.toList.all isHexDigitChar

/-- Moving one file into a directory: an existing file of the same name is
overwritten, so the directory gains the name only when it is new. -/
def moveInto (dir : List String) (name : String) : List String :=
  if dir.contains name then dir else dir ++ [name]

/-- Loop body of launcher.move_mergeable_units.  The first list component
is the destination corpus directory, the second collects the units that
were skipped and hence remain in the merge directory. -/
def moveUnitsAux (initial : List String) : List String → List String → List String → List String × List String
  | [], corpus, skipped => (corpus, skipped)
  | name :: rest, corpus, skipped =>
    if initial.contains name && is_sha1_hash name then
      moveUnitsAux initial rest corpus (skipped ++ [name])
    else
      moveUnitsAux initial rest (moveInto corpus name) skipped

/-- Translation of launcher.move_mergeable_units: every file of the merge
directory is moved into the corpus directory except those whose name is
already present there and is a forty character hexadecimal digest.  Returns
the final corpus directory contents and the files left behind. -/
def move_mergeable_units (merge_directory corpus_directory : List String) : List String × List String :=
  moveUnitsAux corpus_directory merge_directory corpus_directory []

/-! ### engine_common.unpack_seed_corpus_if_needed

Translated from src/src/python/bot/fuzzers/engine_common.py.  An archive is
modelled as the list of its entries in iteration order; the corpus
directory enters only through its file count and the written names. -/

/-- One entry of a seed corpus archive: its member name and its size. -/
structure SeedCorpusEntry where
  name : String
  size : Nat
deriving DecidableEq, Repr

/-- Size filter of the unpack loop: an entry is skipped when its size
exceeds max bytes; the Python default of float infinity is the none case. -/
def sizeExceeds (maxBytes : Option Nat) (size : Nat) : Bool :=
  match maxBytes with
  | some b => decide (b < size)
  | none => false

/-- Unpack loop of engine_common.unpack_seed_corpus_if_needed: directory
entries (name ending in a slash) and oversized entries are skipped, the
rest are written under sequential zero padded indices. -/
def unpackEntries (maxBytes : Option Nat) : List SeedCorpusEntry → Nat → List String
  | [], _ => []
  | e :: rest, idx =>
    if strEndsWith e.name "/" then unpackEntries maxBytes rest idx
    else if sizeExceeds maxBytes e.size then unpackEntries maxBytes rest idx
    else zeroPad16 idx :: unpackEntries maxBytes rest (idx + 1)

/-- Translation of engine_common.unpack_seed_corpus_if_needed, returning
the list of file names written into the corpus directory.  The guard
follows the source: it returns early when no archive exists, or when force
unpack is off and the corpus file count exceeds max files for unpack. -/
def unpack_seed_corpus_if_needed (archive : Option (List SeedCorpusEntry))
    (num_corpus_files : Nat) (max_bytes : Option Nat) (force_unpack : Bool)
    (max_files_for_unpack : Nat) : List String :=
  match archive with
  | none => []
  | some entries =>
    if force_unpack = false ∧ num_corpus_files > max_files_for_unpack then []
    else unpackEntries max_bytes entries 0

/-! ### The engine registry

Translated from src/src/python/bot/fuzzers/engine.py.  Python classes are
identified by a numeric id; object identity of constructed instances is
modelled by a fresh allocation counter in the registry state. -/

/-- A constructed engine object: the class it instantiates and its object
identity. -/
structure EngineInstance where
  cls : Nat
  objId : Nat
deriving DecidableEq, Repr

/-- The registry state: the name to class map and the allocator for object
identities. -/
structure EngineRegistry where
  engines : List (String × Nat)
  nextObj : Nat
deriving DecidableEq, Repr

/-- Translation of engine.register_engine: registering a name that is
already present raises ValueError, modelled as none. -/
def register_engine (reg : EngineRegistry) (name : String) (cls : Nat) : Option EngineRegistry :=
  if (reg.engines.map Prod.fst).contains name then none
  else some { engines := reg.engines ++ [(name, cls)], nextObj := reg.nextObj }

/-- Translation of engine.get: an unknown name yields none, a known name
yields a freshly constructed instance of the registered class. -/
def engine_get (reg : EngineRegistry) (name : String) : Option EngineInstance × EngineRegistry :=
  match (reg.engines.find? (fun p => p.1 == name)).map Prod.snd with
  | some c => (some { cls := c, objId := reg.nextObj }, { engines := reg.engines, nextObj := reg.nextObj + 1 })
  | none => (none, reg)

/-! ### libFuzzer constants and argument handling

The flag strings are from src/src/python/bot/fuzzers/libFuzzer/constants.py.
The argument extraction helper lives in bot/fuzzers/utils.py which is not
part of the provided sources, so it is modelled from the specification. -/

def DICT_FLAG : String := "-dict="
def MAX_LEN_FLAG : String := "-max_len="
def RUNS_FLAG : String := "-runs="
def FORK_FLAG : String := "-fork="
def COLLECT_DATA_FLOW_FLAG : String := "-collect_data_flow="
def TIMEOUT_FLAG : String := "-timeout="
def MAX_TOTAL_TIME_FLAG : String := "-max_total_time="
def MINIMIZE_CRASH_ARGUMENT : String := "-minimize_crash=1"
def EXACT_ARTIFACT_PATH_FLAG : String := "-exact_artifact_path="

/-- Modelled from the spec: fuzzer_utils.extract_argument without removal
is not under src/; per the argument contract it returns the value of the
first argument that carries the given flag. -/
def extract_argument_value (args : List String) (flag : String) : Option String :=
  (args.find? (fun a => strStartsWith a flag)).map (fun a => strDropLen a flag.toList.length)

/-- Modelled from the spec: fuzzer_utils.extract_argument with removal is
not under src/; it deletes the first argument carrying the flag. -/
def removeArg : List String → String → List String
  | [], _ => []
  | a :: rest, flag => if strStartsWith a flag then rest else a :: removeArg rest flag

/-- Translation of launcher.remove_fuzzing_arguments: the dictionary, max
length, runs, fork and data flow collection flags are removed before merge
and reproduction. -/
def remove_fuzzing_arguments (arguments : List String) : List String :=
  [DICT_FLAG, MAX_LEN_FLAG, RUNS_FLAG, FORK_FLAG, COLLECT_DATA_FLOW_FLAG].foldl removeArg arguments

/-- Python int() restricted to unsigned decimal literals, the only shape
the engine stats and flag values take in the source. -/
def parseNatOpt (s : String) : Option Nat :=
  if s.toList ≠ [] ∧ s.toList.all Char.isDigit then some (digitsToNat s.toList) else none

/-! ### libfuzzer.LibFuzzerCommon.minimize_crash and
LibFuzzerEngine.minimize_testcase

Translated from src/src/python/bot/fuzzers/libfuzzer.py and
src/src/python/bot/fuzzers/libFuzzer/engine.py.  The child process run is
the environment: a function from the argument list to the exit code and to
whether a file exists at the exact artifact path afterwards. -/

/-- Behaviour of run_and_wait for one minimization session: exit code of
the child process and whether the output file was written. -/
structure MinimizeWorld where
  run : List String → Int × Bool

/-- LIBFUZZER_CLEAN_EXIT_TIME from libfuzzer.py. -/
def LIBFUZZER_CLEAN_EXIT_TIME : Nat := 10

/-- Translation of LibFuzzerCommon.minimize_crash argument assembly: the
max total time is the timeout minus the clean exit window, halved; the
assertion that it is positive fails (none) otherwise. -/
def minimize_crash_args (testcase_path output_path : String) (timeout : Nat)
    (additional_args : List String) : Option (List String) :=
  let max_total_time := (timeout - LIBFUZZER_CLEAN_EXIT_TIME) / 2
  if max_total_time = 0 then none
  else some (additional_args ++
    [MINIMIZE_CRASH_ARGUMENT,
     MAX_TOTAL_TIME_FLAG ++ toString max_total_time,
     EXACT_ARTIFACT_PATH_FLAG ++ output_path,
     testcase_path])

/-- The artifact directory argument LibFuzzerEngine.minimize_testcase adds,
pointing into the minimize workdir. -/
def minimizeArtifactArg : String := "-artifact_" ++ "prefix=minimize-workdir/"

/-- Translation of LibFuzzerEngine.minimize_testcase: run minimize_crash
with the artifact directory appended and report success exactly when the
exit code is zero.  None models the assertion failure inside
minimize_crash for too small budgets. -/
def minimize_testcase (w : MinimizeWorld) (arguments : List String)
    (input_path output_path : String) (max_time : Nat) : Option Bool :=
  match minimize_crash_args input_path output_path max_time (arguments ++ [minimizeArtifactArg]) with
  | none => none
  | some args => some ((w.run args).1 == 0)

/-- The full argument list minimize_testcase hands to the child process,
stated independently for use in theorems. -/
def minimizeInvocation (arguments : List String) (input_path output_path : String)
    (max_time : Nat) : List String :=
  (arguments ++ [minimizeArtifactArg]) ++
    [MINIMIZE_CRASH_ARGUMENT,
     MAX_TOTAL_TIME_FLAG ++ toString ((max_time - LIBFUZZER_CLEAN_EXIT_TIME) / 2),
     EXACT_ARTIFACT_PATH_FLAG ++ output_path,
     input_path]

/-! ### Crash path extraction

CRASH_TESTCASE_REGEX from launcher.py, applied with re.match in
LibFuzzerEngine.fuzz.  The regex semantics are reproduced directly: the
greedy leading dot star picks the last occurrence of the literal whose
remaining suffix makes the group match; the group itself is the suffix
after the literal and the greedily consumed whitespace, and it must contain
one of the crash, oom, timeout or leak markers followed by a dash. -/

/-- The literal part of CRASH_TESTCASE_REGEX. -/
def crashLit : List Char := "Test unit written to".toList

/-- The alternation group of CRASH_TESTCASE_REGEX, each option with the
dash that must follow it. -/
def tokenDashList : List (List Char) := ["crash-".toList, "oom-".toList, "timeout-".toList, "leak-".toList]

/-- Substring containment on character lists. -/
def containsSub (pat : List Char) : List Char → Bool
  | [] => pat.isEmpty
  | c :: rest => pat.isPrefixOf (c :: rest) || containsSub pat rest

/-- Whether one of the crash type markers followed by a dash occurs. -/
def hasTokenDash (s : List Char) : Bool :=
  tokenDashList.any (fun t => containsSub t s)

/-- All positions at which the literal of CRASH_TESTCASE_REGEX occurs. -/
def litMatchPositions (line : List Char) : List Nat :=
  (List.range (line.length + 1)).filter (fun i => crashLit.isPrefixOf (line.drop i))

/-- Group one of CRASH_TESTCASE_REGEX under re.match, or none when the
line does not match. -/
def crashPath (line : List Char) : Option (List Char) :=
  match ((litMatchPositions line).filter
      (fun i => hasTokenDash (line.drop (i + crashLit.length)))).getLast? with
  | none => none
  | some i => some ((line.drop (i + crashLit.length)).dropWhile isWsChar)

/-! ### launcher.parse_log_stats and the stats map

Translated from src/src/python/bot/fuzzers/libFuzzer/launcher.py.  The
stats map is an association list with dictionary style update; values are
rationals since one derived stat is a ratio. -/

/-- The stats map of a session.  Values are integers; the one ratio
valued stat the source computes as a float is represented by the integer
part of the same ratio. -/
abbrev StatsMap : Type := List (String × Int)

/-- Dictionary style single key update. -/
def setStat : StatsMap → String → Int → StatsMap
  | [], k, v => [(k, v)]
  | p :: rest, k, v => if p.1 = k then (k, v) :: rest else p :: setStat rest k v

/-- Dictionary style lookup. -/
def lookupStat : StatsMap → String → Option Int
  | [], _ => none
  | p :: rest, k => if p.1 = k then some p.2 else lookupStat rest k

/-- Dictionary update with a whole map, as Python dict.update. -/
def updateStats (m patch : StatsMap) : StatsMap :=
  patch.foldl (fun acc p => setStat acc p.1 p.2) m

/-- One line against the final stats regex stat followed by a name of
letters and underscores, a colon, whitespace and a maximal non whitespace
value.  Returns the name and the raw value characters. -/
def parse_stat_line (l : List Char) : Option (String × List Char) :=
  if ("stat::".toList).isPrefixOf l then
    let rest := l.drop 6
    let name := rest.takeWhile isStatNameChar
    match rest.drop name.length with
    | ':' :: rest3 =>
      let value := (rest3.dropWhile isWsChar).takeWhile (fun c => !isWsChar c)
      if name ≠ [] ∧ value ≠ [] then some (String.mk name, value) else none
    | _ => none
  else none

/-- One step of the final stats gathering: a numeric stats line updates
the map, a non numeric value is logged and dropped. -/
def statLogStep (m : StatsMap) (line : List Char) : StatsMap :=
  match parse_stat_line line with
  | some (name, value) =>
    if value.all Char.isDigit then setStat m name ((digitsToNat value : Int)) else m
  | none => m

/-- Final step of parse_log_stats: preserve the pre merge value of
new_units_added under new_units_generated when it is present. -/
def withGenerated (m : StatsMap) : StatsMap :=
  match lookupStat m "new_units_added" with
  | some v => setStat m "new_units_generated" v
  | none => m

/-- Translation of launcher.parse_log_stats: gather the numeric final
stats, drop non numeric values, then preserve the pre merge value of
new_units_added under new_units_generated. -/
def parse_log_stats (log_lines : List (List Char)) : StatsMap :=
  withGenerated (log_lines.foldl statLogStep [])

/-- Modelled from the spec: stats.parse_performance_features is not under
src/; the spec says the presence of specific marker substrings in the log
sets corresponding counters. -/
def parse_performance_features (log_lines : List (List Char)) : StatsMap :=
  let m : StatsMap := []
  let m := if log_lines.any (fun l => containsSub ("ERROR: AddressSanitizer".toList) l)
    then setStat m "crash_count" 1 else m
  let m := if log_lines.any (fun l => containsSub ("libFuzzer: out-of-memory".toList) l)
    then setStat m "oom_count" 1 else m
  let m := if log_lines.any (fun l => containsSub ("libFuzzer: timeout".toList) l)
    then setStat m "timeout_count" 1 else m
  m

/-- One step of the merge log gathering: a stats style line whose key
carries the merge marker updates the map. -/
def mergeLogStep (m : StatsMap) (line : List Char) : StatsMap :=
  match parse_stat_line line with
  | some (name, value) =>
    if strStartsWith name "merge_" && value.all Char.isDigit then
      setStat m name ((digitsToNat value : Int))
    else m
  | none => m

/-- Modelled from the spec: stats.parse_stats_from_merge_log is not under
src/; the spec says merge log lines with distinguished prefixes are
gathered into a second map, so each key carries the merge marker. -/
def parse_stats_from_merge_log (log_lines : List (List Char)) : StatsMap :=
  log_lines.foldl mergeLogStep []

/-! ### LibFuzzerEngine.fuzz and LibFuzzerEngine._merge_new_units

Translated from src/src/python/bot/fuzzers/libFuzzer/engine.py.  The engine
child processes are the environment: the captured log of the fuzz run, the
files the run left in the fresh new unit directory, and the outcome of the
later merge run (exit status, output directory contents and merge log). -/

/-- Environment of one fuzz session. -/
structure FuzzWorld where
  logLines : List (List Char)
  newUnits : List String
  mergeTimedOut : Bool
  mergeReturnCode : Int
  mergedFiles : List String
  mergeLogLines : List (List Char)
  timeExecuted : Nat
  fuzzTimeout : Nat

/-- A crash record assembled by fuzz. -/
structure EngineCrash where
  input_path : List Char
  reproduce_args : List String
deriving DecidableEq, Repr

/-- Result of one fuzz session: the crash list, the stats map and the
final primary corpus contents. -/
structure FuzzSessionResult where
  crashes : List EngineCrash
  stats : StatsMap
  corpus : List String
deriving DecidableEq, Repr

/-- Translation of LibFuzzerEngine._merge_new_units: skip completely when
the run produced no new units; a merge timeout or nonzero exit is the
caught MergeError, leaving new_units_added at zero; otherwise move the
mergeable units back and record the growth of the primary corpus. -/
def merge_new_units (w : FuzzWorld) (corpus_dir : List String) (stat_overrides : StatsMap) :
    StatsMap × List String :=
  if w.newUnits.length = 0 then (setStat stat_overrides "new_units_added" 0, corpus_dir)
  else if w.mergeTimedOut = true ∨ w.mergeReturnCode ≠ 0 then
    (setStat stat_overrides "new_units_added" 0, corpus_dir)
  else
    let old_corpus_len := corpus_dir.length
    let corpus' := (move_mergeable_units w.mergedFiles corpus_dir).1
    let new_units_added : Int := (corpus'.length : Int) - (old_corpus_len : Int)
    let stats' := if w.mergeLogLines.isEmpty then stat_overrides
      else updateStats stat_overrides (parse_stats_from_merge_log w.mergeLogLines)
    (setStat stats' "new_units_added" new_units_added, corpus')

/-- Translation of LibFuzzerCommon.get_max_total_time: the timeout minus
the clean exit window and the sigterm wait. -/
def get_max_total_time (timeout : Nat) : Nat := timeout - 10 - 10

/-- The stats assembled by fuzz before the merge step: the parsed final
stats, overlaid with the performance features, plus the timeout limit and
the duration stats.  The ratio valued fuzzing time percent is represented
by its integer part. -/
def sessionStats (w : FuzzWorld) (timeout_limit : Nat) : StatsMap :=
  let parsed_stats := parse_log_stats w.logLines
  let parsed_stats := updateStats parsed_stats (parse_performance_features w.logLines)
  let expected_duration := get_max_total_time w.fuzzTimeout
  let actual_duration := w.timeExecuted
  let parsed_stats := setStat parsed_stats "timeout_limit" (timeout_limit : Int)
  let parsed_stats := setStat parsed_stats "expected_duration" (expected_duration : Int)
  let parsed_stats := setStat parsed_stats "actual_duration" (actual_duration : Int)
  setStat parsed_stats "fuzzing_time_percent"
    (100 * (actual_duration : Int) / (expected_duration : Int))

/-- Translation of LibFuzzerEngine.fuzz over the session environment: find
the first crash line, parse the final stats and performance features, add
the duration stats, sanitize the arguments, merge new units back, and
assemble the result.  None models the exception raised when the timeout
flag value is absent or non numeric. -/
def fuzz (w : FuzzWorld) (corpus_dir : List String) (arguments : List String) :
    Option FuzzSessionResult :=
  let crash_testcase_file_path := w.logLines.findSome? crashPath
  match (extract_argument_value arguments TIMEOUT_FLAG).bind parseNatOpt with
  | none => none
  | some timeout_limit =>
    let arguments' := remove_fuzzing_arguments arguments
    let sc := merge_new_units w corpus_dir (sessionStats w timeout_limit)
    let crashes := match crash_testcase_file_path with
      | some p => [{ input_path := p, reproduce_args := arguments' : EngineCrash }]
      | none => []
    some { crashes := crashes, stats := sc.1, corpus := sc.2 }

/-! ### The progression task

Translated from src/src/python/bot/tasks/progression_task.py.  The
reproduction environment is a deterministic function from revision to the
outcome of one build and test attempt; datastore helpers that are not
under src/ are modelled from the specification where marked. -/

/-- Outcome of one _testcase_reproduces_in_revision attempt: the build
setup can fail (BuildSetupError), the build can be flagged bad
(BadBuildError), or the test runs with or without a crash. -/
inductive TrialOutcome
  | buildFail
  | badBuild
  | ran (isCrash : Bool)
deriving DecidableEq, Repr

/-- The free form fixed field of a test case, as the sum the design notes
prescribe: empty, the literal Yes, or a revision range. -/
inductive FixedStatus
  | notFixed
  | yes
  | range (lo hi : Nat)
deriving DecidableEq, Repr

/-- The test case fields and reserved metadata keys the progression task
reads or writes.  The source field open is isOpen here since open is a
reserved word; absent metadata is none, and the progression pending marker
is its presence flag. -/
structure Testcase where
  isOpen : Bool
  fixed : FixedStatus
  crash_revision : Nat
  last_tested_crash_stacktrace : Option String
  potentially_flaky : Bool
  retried : Bool
  progression_pending : Bool
  last_progression_min : Option Nat
  last_progression_max : Option Nat
  last_tested_revision : Option Nat
  last_tested_crash_revision : Option Nat
  last_tested_crash_time : Option Nat
  closed_time : Option Nat
deriving DecidableEq, Repr

/-- Environment of one progression task run. -/
structure ProgWorld where
  trial : Nat → TrialOutcome
  stacktrace : Nat → String
  revisionList : List Nat
  isCustomBinary : Bool
  customRevision : Nat
  customBuildOk : Bool
  customCrash : Bool
  setupOk : Bool
  now : Nat

/-- Errors find_fixed_range can raise to execute_task. -/
inductive ProgError
  | buildSetup (revision : Nat)
  | badBuild (revision : Nat)
  | buildNotFound (revision : Nat)
deriving DecidableEq, Repr

/-- Externally visible effects of one run: the revisions at which a
reproduction attempt was made, the number of progression tasks enqueued,
the ranges written to the analytics sink, and whether crash info was
saved. -/
structure Effects where
  trials : List Nat
  requeues : Nat
  bigquery : List (Nat × Nat)
  savedCrashInfo : Bool
deriving DecidableEq, Repr

/-- The empty effect record. -/
def noEffects : Effects := { trials := [], requeues := 0, bigquery := [], savedCrashInfo := false }

/-- Record one reproduction attempt. -/
def addTrial (e : Effects) (r : Nat) : Effects := { e with trials := e.trials ++ [r] }

/-- Record one task enqueue. -/
def addRequeue (e : Effects) : Effects := { e with requeues := e.requeues + 1 }

/-- Result of one run of find_fixed_range: the final test case, the
effects, the final value of the working revision list with the final min
and max indices, and the error raised if any. -/
structure RunResult where
  tc : Testcase
  eff : Effects
  revList : List Nat
  minIdx : Nat
  maxIdx : Nat
  raised : Option ProgError
deriving DecidableEq, Repr

/-- Translation of _clear_progression_pending. -/
def _clear_progression_pending (tc : Testcase) : Testcase :=
  { tc with progression_pending := false }

/-- Translation of _update_completion_metadata: clear the pending marker,
record the last tested revision, on a crash record the crash revision and
time, and stamp the closed time when the case is not open. -/
def _update_completion_metadata (now : Nat) (tc : Testcase) (revision : Nat) (is_crash : Bool) :
    Testcase :=
  let tc := _clear_progression_pending tc
  let tc := { tc with last_tested_revision := some revision }
  let tc := if is_crash then
      { tc with last_tested_crash_revision := some revision, last_tested_crash_time := some now }
    else tc
  if tc.isOpen then tc else { tc with closed_time := some now }

/-- Modelled from the spec: task_creation.mark_unreproducible_if_flaky is
not under src/; per the spec it marks or clears the potentially flaky
state of the test case. -/
def mark_unreproducible_if_flaky (tc : Testcase) (flaky : Bool) : Testcase :=
  { tc with potentially_flaky := flaky }

/-- Modelled from the spec: data_handler.is_first_retry_for_task with
reset after retry is not under src/; the first call reports a first retry
and sets the marker, the next call reports otherwise and resets it. -/
def is_first_retry_for_task (tc : Testcase) : Bool × Testcase :=
  if tc.retried then (false, { tc with retried := false })
  else (true, { tc with retried := true })

/-- Python or with zero falsy, as used for the metadata fallbacks. -/
def pythonOr (o : Option Nat) (d : Nat) : Nat :=
  match o with
  | some v => if v = 0 then d else v
  | none => d

/-- Modelled from the spec: revisions.find_min_revision_index and
find_max_revision_index are not under src/; the spec references a test
case into the revision list by the exact index of its revision, so both
are the exact index lookup. -/
def findRevisionIndex : List Nat → Nat → Option Nat
  | [], _ => none
  | v :: rest, r => if v = r then some 0 else (findRevisionIndex rest r).map (· + 1)

/-- Modelled from the spec: revisions.get_last_revision_in_list is not
under src/; the end of the range is the trunk revision, the last list
entry. -/
def lastRevisionInList (l : List Nat) : Nat := l.getLastD 0

/-- The known crash revision: the last tested crash revision metadata or
the crash revision field. -/
def progKnownCrashRevision (tc : Testcase) : Nat :=
  pythonOr tc.last_tested_crash_revision tc.crash_revision

/-- The starting min revision: the checkpoint metadata or the known crash
revision. -/
def progMinRevision (tc : Testcase) : Nat :=
  pythonOr tc.last_progression_min (progKnownCrashRevision tc)

/-- The starting max revision: the checkpoint metadata or the trunk
revision. -/
def progMaxRevision (w : ProgWorld) (tc : Testcase) : Nat :=
  pythonOr tc.last_progression_max (lastRevisionInList w.revisionList)

/-- Translation of the binary search loop of find_fixed_range.  The task
deadline is modelled as fuel consumed once per loop iteration; exhausted
fuel is the timed out branch that requeues the task.  The bad build case
deletes the middle revision from the working list and decrements the max
index; otherwise the crash outcome moves one of the endpoints to the
middle and the checkpoint metadata is saved. -/
def bisect (w : ProgWorld) (tc : Testcase) (eff : Effects) (L : List Nat) (minI maxI : Nat) :
    Nat → RunResult
  | 0 =>
    { tc := tc, eff := addRequeue eff, revList := L, minIdx := minI, maxIdx := maxI, raised := none }
  | fuel + 1 =>
    let min_revision := L.getD minI 0
    let max_revision := L.getD maxI 0
    if maxI - minI = 1 then
      let tc := { tc with fixed := FixedStatus.range min_revision max_revision, isOpen := false }
      let tc := _update_completion_metadata w.now tc max_revision false
      { tc := tc, eff := { eff with bigquery := eff.bigquery ++ [(min_revision, max_revision)] },
        revList := L, minIdx := minI, maxIdx := maxI, raised := none }
    else
      let middleI := (minI + maxI) / 2
      let middle_revision := L.getD middleI 0
      match w.trial middle_revision with
      | TrialOutcome.buildFail =>
        { tc := tc, eff := addTrial eff middle_revision, revList := L, minIdx := minI,
          maxIdx := maxI, raised := some (ProgError.buildSetup middle_revision) }
      | TrialOutcome.badBuild =>
        bisect w tc (addTrial eff middle_revision) (L.eraseIdx middleI) minI (maxI - 1) fuel
      | TrialOutcome.ran isCrash =>
        let minI' := if isCrash then middleI else minI
        let maxI' := if isCrash then maxI else middleI
        let tc := { tc with last_progression_min := some (L.getD minI' 0),
                            last_progression_max := some (L.getD maxI' 0) }
        bisect w tc (addTrial eff middle_revision) L minI' maxI' fuel

/-- Translation of _check_fixed_for_custom_binary. -/
def _check_fixed_for_custom_binary (w : ProgWorld) (tc : Testcase) : RunResult :=
  let revision := w.customRevision
  if w.customBuildOk = false then
    { tc := tc, eff := addRequeue noEffects, revList := w.revisionList, minIdx := 0, maxIdx := 0,
      raised := none }
  else
    let eff := addTrial noEffects revision
    if w.customCrash then
      let tc := { tc with last_tested_crash_stacktrace := some (w.stacktrace revision) }
      { tc := _update_completion_metadata w.now tc revision true, eff := eff,
        revList := w.revisionList, minIdx := 0, maxIdx := 0, raised := none }
    else
      match is_first_retry_for_task tc with
      | (true, tc) =>
        { tc := _update_completion_metadata w.now tc revision false, eff := addRequeue eff,
          revList := w.revisionList, minIdx := 0, maxIdx := 0, raised := none }
      | (false, tc) =>
        let tc := { tc with fixed := FixedStatus.yes, isOpen := false }
        { tc := _update_completion_metadata w.now tc revision false, eff := eff,
          revList := w.revisionList, minIdx := 0, maxIdx := 0, raised := none }

/-- Translation of find_fixed_range: bail out when the fixed range is
already set or setup fails, mark progression pending, special case custom
binaries, requeue on a missing revision list, resolve the min and max
revisions and indices, run the latest revision guard and the min revision
guard, and enter the bisection loop. -/
def find_fixed_range (w : ProgWorld) (tc0 : Testcase) (fuel : Nat) : RunResult :=
  if tc0.fixed ≠ FixedStatus.notFixed then
    { tc := tc0, eff := noEffects, revList := w.revisionList, minIdx := 0, maxIdx := 0,
      raised := none }
  else if w.setupOk = false then
    { tc := tc0, eff := noEffects, revList := w.revisionList, minIdx := 0, maxIdx := 0,
      raised := none }
  else
    let tc1 := { tc0 with progression_pending := true }
    if w.isCustomBinary then _check_fixed_for_custom_binary w tc1
    else if w.revisionList = [] then
      { tc := tc1, eff := addRequeue noEffects, revList := w.revisionList, minIdx := 0,
        maxIdx := 0, raised := none }
    else
      let L := w.revisionList
      let min_revision := progMinRevision tc1
      let max_revision := progMaxRevision w tc1
      match findRevisionIndex L min_revision with
      | none =>
        { tc := tc1, eff := noEffects, revList := L, minIdx := 0, maxIdx := 0,
          raised := some (ProgError.buildNotFound min_revision) }
      | some minI =>
        match findRevisionIndex L max_revision with
        | none =>
          { tc := tc1, eff := noEffects, revList := L, minIdx := 0, maxIdx := 0,
            raised := some (ProgError.buildNotFound max_revision) }
        | some maxI =>
          let eff1 := addTrial noEffects max_revision
          match w.trial max_revision with
          | TrialOutcome.buildFail =>
            { tc := tc1, eff := eff1, revList := L, minIdx := 0, maxIdx := 0,
              raised := some (ProgError.buildSetup max_revision) }
          | TrialOutcome.badBuild =>
            { tc := tc1, eff := eff1, revList := L, minIdx := 0, maxIdx := 0,
              raised := some (ProgError.badBuild max_revision) }
          | TrialOutcome.ran true =>
            let tc2 := { tc1 with last_tested_crash_stacktrace := some (w.stacktrace max_revision) }
            let tc3 := _update_completion_metadata w.now tc2 max_revision true
            let tc4 := mark_unreproducible_if_flaky tc3 false
            { tc := tc4, eff := { eff1 with savedCrashInfo := true }, revList := L, minIdx := 0,
              maxIdx := 0, raised := none }
          | TrialOutcome.ran false =>
            let eff2 := addTrial eff1 min_revision
            match w.trial min_revision with
            | TrialOutcome.buildFail =>
              { tc := tc1, eff := eff2, revList := L, minIdx := 0, maxIdx := 0,
                raised := some (ProgError.buildSetup min_revision) }
            | TrialOutcome.badBuild =>
              { tc := tc1, eff := eff2, revList := L, minIdx := 0, maxIdx := 0,
                raised := some (ProgError.badBuild min_revision) }
            | TrialOutcome.ran false =>
              match is_first_retry_for_task tc1 with
              | (true, tc2) =>
                { tc := _update_completion_metadata w.now tc2 max_revision false,
                  eff := addRequeue eff2, revList := L, minIdx := 0, maxIdx := 0, raised := none }
              | (false, tc2) =>
                let tc3 := _clear_progression_pending tc2
                { tc := mark_unreproducible_if_flaky tc3 true, eff := eff2, revList := L,
                  minIdx := 0, maxIdx := 0, raised := none }
            | TrialOutcome.ran true =>
              bisect w tc1 eff2 L minI maxI fuel

/-! ### Specification side definitions and concrete scenarios

spec_crash_line renders the crash line shape exactly as the specification
words it, for comparison against the source regex.  The remaining
definitions are concrete worlds used to evaluate the model. -/

/-- Modelled from the spec wording only, for comparison with crashPath:
start of line, optional indent, the literal, whitespace, then a path
terminated by whitespace or end of line. -/
def spec_crash_line (line : List Char) : Option (List Char) :=
  let rest := line.dropWhile isWsChar
  if crashLit.isPrefixOf rest then
    let path := ((rest.drop crashLit.length).dropWhile isWsChar).takeWhile (fun c => !isWsChar c)
    if path.isEmpty then none else some path
  else none

/-- A freshly created open test case with no progression metadata. -/
def tcFresh : Testcase :=
  { isOpen := true, fixed := FixedStatus.notFixed, crash_revision := 100,
    last_tested_crash_stacktrace := none, potentially_flaky := false, retried := false,
    progression_pending := false, last_progression_min := none, last_progression_max := none,
    last_tested_revision := none, last_tested_crash_revision := none,
    last_tested_crash_time := none, closed_time := none }

/-- A test case whose fixed field is already set. -/
def tcYes : Testcase := { tcFresh with fixed := FixedStatus.yes }

/-- A test case that already used its retry. -/
def tcRetried : Testcase := { tcFresh with retried := true }

/-- Scenario S3 of the specification: five revisions, the crash reproduces
up to revision 120 and not afterwards. -/
def wS3 : ProgWorld :=
  { trial := fun r => TrialOutcome.ran (decide (r ≤ 120)), stacktrace := fun _ => "s",
    revisionList := [100, 110, 120, 130, 140], isCustomBinary := false, customRevision := 0,
    customBuildOk := true, customCrash := false, setupOk := true, now := 7 }

/-- Scenario S5: the crash still reproduces everywhere. -/
def wStill : ProgWorld :=
  { wS3 with trial := fun _ => TrialOutcome.ran true, revisionList := [100, 140] }

/-- Scenario S6: the crash reproduces nowhere. -/
def wFlaky : ProgWorld :=
  { wS3 with trial := fun _ => TrialOutcome.ran false, revisionList := [100, 140] }

/-- A fuzz session world in which the engine reports one new unit but the
merge pulls back three units, two of them contributed by an additional
corpus directory. -/
def cw4 : FuzzWorld :=
  { logLines := ["stat::new_units_added: 1".toList], newUnits := ["u1"], mergeTimedOut := false,
    mergeReturnCode := 0, mergedFiles := ["u1", "m1", "m2"], mergeLogLines := [],
    timeExecuted := 50, fuzzTimeout := 120 }

/-- A quiet fuzz session world: empty log, no new units. -/
def cw4w : FuzzWorld :=
  { logLines := [], newUnits := [], mergeTimedOut := false, mergeReturnCode := 0,
    mergedFiles := [], mergeLogLines := [], timeExecuted := 0, fuzzTimeout := 30 }

/-- The result of the quiet fuzz session. -/
def cw4wResult : FuzzSessionResult :=
  { crashes := [],
    stats := [("timeout_limit", 1), ("expected_duration", 10), ("actual_duration", 0),
              ("fuzzing_time_percent", 0), ("new_units_added", 0)],
    corpus := [] }

/-- A session whose log holds one crash line whose path carries none of
the crash type markers. -/
def cw5 : FuzzWorld := { cw4w with logLines := ["Test unit written to /tmp/testcase".toList] }

/-- A session whose log holds one well formed crash line. -/
def cw5w : FuzzWorld := { cw4w with logLines := ["Test unit written to ./crash-1".toList] }

/-- A minimization child process that exits cleanly but writes no output
file. -/
def mwZero : MinimizeWorld := { run := fun _ => (0, false) }

/-- A registry holding one engine class under the libFuzzer name. -/
def creg1 : EngineRegistry := { engines := [("libFuzzer", 7)], nextObj := 0 }

/-- A forty character hexadecimal name. -/
def hex40 : String := "0123456789abcdef0123456789abcdef01234567"

/-- The empty engine registry. -/
def creg0 : EngineRegistry := { engines := [], nextObj := 0 }

/-- Soundness of a committed fixed range for a run result: whenever the
final test case carries a fixed range a:b, the crash reproduces at a, does
not reproduce at b, and a and b sit at adjacent indices of the final
working revision list. -/
def commitSound (w : ProgWorld) (r : RunResult) : Prop :=
  ∀ a b, r.tc.fixed = FixedStatus.range a b →
    w.trial a = TrialOutcome.ran true ∧ w.trial b = TrialOutcome.ran false ∧
    r.maxIdx = r.minIdx + 1 ∧ r.maxIdx < r.revList.length ∧
    r.revList.getD r.minIdx 0 = a ∧ r.revList.getD r.maxIdx 0 = b

/-! ## Theorems -/

/-! ### C7: seed corpus unpack boundary -/

/-- C7: at a corpus file count exactly equal to max files for unpack and
force off, unpack_seed_corpus_if_needed still expands the archive, writing
the zero padded first entry, while at one more file it does nothing; the
function docstring and the claim say unpacking requires strictly fewer
files than the bound. -/
theorem unpack_boundary_eval :
    unpack_seed_corpus_if_needed (some [{ name := "seed", size := 1 }]) 5 none false 5 =
      ["0000000000000000"] ∧
    unpack_seed_corpus_if_needed (some [{ name := "seed", size := 1 }]) 6 none false 5 = [] := by
  decide

/-! ### C8: minimize_testcase -/

/-- C8 counterexample: with a child process that exits cleanly but writes
no output file, minimize_testcase still reports success, refuting the
claim that success requires an output file to have been written. -/
theorem minimize_success_without_output :
    minimize_testcase mwZero [] "in" "out" 60 = some true ∧
    (mwZero.run (minimizeInvocation [] "in" "out" 60)).2 = false := by
  decide

/-- C8 amended: minimize_testcase invokes the engine with a max total time
of half the allotted time after subtracting the clean exit window, and
reports success exactly when the exit code is zero, with no check of the
output file. -/
theorem minimize_testcase_behaviour (w : MinimizeWorld) (arguments : List String)
    (input_path output_path : String) (max_time : Nat) (h : 12 ≤ max_time) :
    minimize_testcase w arguments input_path output_path max_time =
      some ((w.run (minimizeInvocation arguments input_path output_path max_time)).1 == 0) ∧
    (MAX_TOTAL_TIME_FLAG ++ toString ((max_time - LIBFUZZER_CLEAN_EXIT_TIME) / 2)) ∈
      minimizeInvocation arguments input_path output_path max_time := by
  constructor
  · have hne : (max_time - LIBFUZZER_CLEAN_EXIT_TIME) / 2 ≠ 0 := by
      unfold LIBFUZZER_CLEAN_EXIT_TIME; omega
    unfold minimize_testcase minimize_crash_args minimizeInvocation
    rw [if_neg hne]
  · unfold minimizeInvocation
    simp

/-- C8 witness: the behaviour theorem applied to the concrete world. -/
theorem minimize_testcase_behaviour_witness :
    (12 ≤ 60) ∧
    (minimize_testcase mwZero ["-runs=100"] "a" "b" 60 =
      some ((mwZero.run (minimizeInvocation ["-runs=100"] "a" "b" 60)).1 == 0) ∧
    (MAX_TOTAL_TIME_FLAG ++ toString ((60 - LIBFUZZER_CLEAN_EXIT_TIME) / 2)) ∈
      minimizeInvocation ["-runs=100"] "a" "b" 60) :=
  ⟨by decide, minimize_testcase_behaviour mwZero ["-runs=100"] "a" "b" 60 (by decide)⟩

/-! ### C9: the engine registry -/

/-- C9 counterexample: two lookups of the same registered name construct
two distinct instances, refuting the claim that lookup returns the same
singleton on every lookup. -/
theorem engine_get_fresh_instances :
    (engine_get creg1 "libFuzzer").1 = some { cls := 7, objId := 0 } ∧
    (engine_get (engine_get creg1 "libFuzzer").2 "libFuzzer").1 = some { cls := 7, objId := 1 } ∧
    some ({ cls := 7, objId := 0 } : EngineInstance) ≠ some ({ cls := 7, objId := 1 } : EngineInstance) := by
  decide

/-- C9 amended: registering a duplicate name fails, so registered names
stay unique; lookup of an unregistered name returns none rather than an
error; lookup of a registered name constructs a fresh instance on every
call, so successive lookups return distinct objects of the same class. -/
theorem engineGetOfFindNone (reg : EngineRegistry) (name : String)
    (h : reg.engines.find? (fun p => p.1 == name) = none) :
    engine_get reg name = (none, reg) := by
  unfold engine_get
  rw [h]
  rfl

theorem engineGetOfFindSome (reg : EngineRegistry) (name : String) (p : String × Nat)
    (h : reg.engines.find? (fun p => p.1 == name) = some p) :
    engine_get reg name =
      (some { cls := p.2, objId := reg.nextObj },
       { engines := reg.engines, nextObj := reg.nextObj + 1 }) := by
  unfold engine_get
  rw [h]
  rfl

theorem findNoneIffNotMem (l : List (String × Nat)) (name : String) :
    l.find? (fun p => p.1 == name) = none ↔ name ∉ l.map Prod.fst := by
  rw [List.find?_eq_none]
  constructor
  · intro h hmem
    obtain ⟨p, hp, hpeq⟩ := List.mem_map.mp hmem
    exact absurd (by simpa using hpeq) (h p hp)
  · intro h p hp hbeq
    exact h (List.mem_map.mpr ⟨p, hp, by simpa using hbeq⟩)

theorem engine_registry_behaviour (reg reg' : EngineRegistry) (name : String) (cls : Nat) :
    (register_engine reg name cls = some reg' →
      name ∉ reg.engines.map Prod.fst ∧
      reg'.engines.map Prod.fst = reg.engines.map Prod.fst ++ [name] ∧
      ((reg.engines.map Prod.fst).Nodup → (reg'.engines.map Prod.fst).Nodup)) ∧
    (register_engine reg name cls = none → name ∈ reg.engines.map Prod.fst) ∧
    ((engine_get reg name).1 = none ↔ name ∉ reg.engines.map Prod.fst) ∧
    (∀ inst, (engine_get reg name).1 = some inst →
      inst.objId = reg.nextObj ∧
      (engine_get (engine_get reg name).2 name).1 =
        some { cls := inst.cls, objId := reg.nextObj + 1 }) := by
  refine ⟨?_, ?_, ?_, ?_⟩
  · intro h
    unfold register_engine at h
    by_cases hc : (reg.engines.map Prod.fst).contains name
    · rw [if_pos hc] at h; exact absurd h (by simp)
    · rw [if_neg hc] at h
      have hmem : name ∉ reg.engines.map Prod.fst := by simpa using hc
      have hengines : reg'.engines = reg.engines ++ [(name, cls)] := by
        cases h'' : reg' with
        | mk e n => cases h'' ▸ h with | refl => rfl
      refine ⟨hmem, ?_, ?_⟩
      · rw [hengines]; simp
      · intro hnd
        rw [hengines]
        simp only [List.map_append, List.map_cons, List.map_nil]
        exact List.Nodup.append hnd (List.nodup_singleton _)
          (fun a ha hb => hmem (by rwa [List.mem_singleton.mp hb] at ha))
  · intro h
    unfold register_engine at h
    by_cases hc : (reg.engines.map Prod.fst).contains name
    · simpa using hc
    · rw [if_neg hc] at h; exact absurd h (by simp)
  · cases hf : reg.engines.find? (fun p => p.1 == name) with
    | none =>
      rw [engineGetOfFindNone reg name hf]
      simpa using (findNoneIffNotMem reg.engines name).mp hf
    | some p =>
      rw [engineGetOfFindSome reg name p hf]
      have hmem : name ∈ reg.engines.map Prod.fst := by
        have hpeq : p.1 = name := by simpa using List.find?_some hf
        exact hpeq ▸ List.mem_map_of_mem Prod.fst (List.mem_of_find?_eq_some hf)
      simp [hmem]
  · intro inst h
    cases hf : reg.engines.find? (fun p => p.1 == name) with
    | none =>
      rw [engineGetOfFindNone reg name hf] at h
      exact absurd h (by simp)
    | some p =>
      rw [engineGetOfFindSome reg name p hf] at h ⊢
      simp only [Option.some.injEq] at h
      subst h
      refine ⟨rfl, ?_⟩
      rw [engineGetOfFindSome _ name p (by simpa using hf)]

/-- C9 witness: the registry behaviour theorem applied to the concrete
registry with a successful duplicate check. -/
theorem engine_registry_behaviour_witness :
    (register_engine creg1 "libFuzzer" 9 = none → "libFuzzer" ∈ creg1.engines.map Prod.fst) ∧
    ((engine_get creg1 "libFuzzer").1 = none ↔ "libFuzzer" ∉ creg1.engines.map Prod.fst) :=
  ⟨(engine_registry_behaviour creg1 creg1 "libFuzzer" 9).2.1,
   (engine_registry_behaviour creg1 creg1 "libFuzzer" 9).2.2.1⟩

/-! ### C6: move_mergeable_units -/

/-- Membership in a directory after moving one file in. -/
theorem mem_moveInto (dir : List String) (name x : String) :
    x ∈ moveInto dir name ↔ x ∈ dir ∨ x = name := by
  unfold moveInto
  by_cases h : dir.contains name
  · rw [if_pos h]
    have hmem : name ∈ dir := List.mem_of_elem_eq_true h
    constructor
    · exact fun hx => Or.inl hx
    · rintro (hx | rfl)
      · exact hx
      · exact hmem
  · rw [if_neg h]
    simp [List.mem_append]

/-- Membership in the destination corpus after the move loop. -/
theorem moveUnitsAux_fst (initial : List String) :
    ∀ (merge corpus skipped : List String) (x : String),
      x ∈ (moveUnitsAux initial merge corpus skipped).1 ↔
        x ∈ corpus ∨ (x ∈ merge ∧ (initial.contains x && is_sha1_hash x) = false) := by
  intro merge
  induction merge with
  | nil =>
    intro corpus skipped x
    simp [moveUnitsAux]
  | cons name rest ih =>
    intro corpus skipped x
    unfold moveUnitsAux
    by_cases hc : (initial.contains name && is_sha1_hash name) = true
    · rw [if_pos hc, ih]
      constructor
      · rintro (h | ⟨hr, hb⟩)
        · exact Or.inl h
        · exact Or.inr ⟨List.mem_cons_of_mem _ hr, hb⟩
      · rintro (h | ⟨hm, hb⟩)
        · exact Or.inl h
        · rcases List.mem_cons.mp hm with rfl | hr
          · rw [hc] at hb; cases hb
          · exact Or.inr ⟨hr, hb⟩
    · rw [if_neg hc, ih]
      have hcf : (initial.contains name && is_sha1_hash name) = false := by
        simpa using hc
      constructor
      · rintro (h | ⟨hr, hb⟩)
        · rcases (mem_moveInto corpus name x).mp h with h' | rfl
          · exact Or.inl h'
          · exact Or.inr ⟨List.mem_cons_self _ _, hcf⟩
        · exact Or.inr ⟨List.mem_cons_of_mem _ hr, hb⟩
      · rintro (h | ⟨hm, hb⟩)
        · exact Or.inl ((mem_moveInto corpus name x).mpr (Or.inl h))
        · rcases List.mem_cons.mp hm with hxn | hr
          · exact Or.inl ((mem_moveInto corpus name x).mpr (Or.inr hxn))
          · exact Or.inr ⟨hr, hb⟩

/-- Membership among the units left behind by the move loop. -/
theorem moveUnitsAux_snd (initial : List String) :
    ∀ (merge corpus skipped : List String) (x : String),
      x ∈ (moveUnitsAux initial merge corpus skipped).2 ↔
        x ∈ skipped ∨ (x ∈ merge ∧ (initial.contains x && is_sha1_hash x) = true) := by
  intro merge
  induction merge with
  | nil =>
    intro corpus skipped x
    simp [moveUnitsAux]
  | cons name rest ih =>
    intro corpus skipped x
    unfold moveUnitsAux
    by_cases hc : (initial.contains name && is_sha1_hash name) = true
    · rw [if_pos hc, ih]
      constructor
      · rintro (h | ⟨hr, hb⟩)
        · rcases List.mem_append.mp h with h' | h'
          · exact Or.inl h'
          · rcases List.mem_singleton.mp h' with rfl
            exact Or.inr ⟨List.mem_cons_self _ _, hc⟩
        · exact Or.inr ⟨List.mem_cons_of_mem _ hr, hb⟩
      · rintro (h | ⟨hm, hb⟩)
        · exact Or.inl (List.mem_append.mpr (Or.inl h))
        · rcases List.mem_cons.mp hm with rfl | hr
          · exact Or.inl (List.mem_append.mpr (Or.inr (List.mem_singleton.mpr rfl)))
          · exact Or.inr ⟨hr, hb⟩
    · rw [if_neg hc, ih]
      constructor
      · rintro (h | ⟨hr, hb⟩)
        · exact Or.inl h
        · exact Or.inr ⟨List.mem_cons_of_mem _ hr, hb⟩
      · rintro (h | ⟨hm, hb⟩)
        · exact Or.inl h
        · rcases List.mem_cons.mp hm with rfl | hr
          · exact absurd hb hc
          · exact Or.inr ⟨hr, hb⟩

/-- C6: move_mergeable_units moves every file of the merge directory into
the corpus directory except exactly those whose name is already present
there and is a forty character hexadecimal digest; a non excluded unit
ends up in the corpus and leaves the merge directory, an excluded unit
stays in the merge directory. -/
theorem move_mergeable_units_correct (merge_directory corpus_directory : List String)
    (name : String) (hmem : name ∈ merge_directory) :
    (¬ (name ∈ corpus_directory ∧ is_sha1_hash name = true) →
      name ∈ (move_mergeable_units merge_directory corpus_directory).1 ∧
      name ∉ (move_mergeable_units merge_directory corpus_directory).2) ∧
    (name ∈ corpus_directory ∧ is_sha1_hash name = true →
      name ∈ (move_mergeable_units merge_directory corpus_directory).1 ∧
      name ∈ (move_mergeable_units merge_directory corpus_directory).2) := by
  unfold move_mergeable_units
  constructor
  · intro hne
    have hb : (corpus_directory.contains name && is_sha1_hash name) = false := by
      cases hcn : corpus_directory.contains name with
      | false => simp
      | true =>
        cases hs : is_sha1_hash name with
        | false => simp
        | true => exact absurd ⟨List.mem_of_elem_eq_true hcn, hs⟩ hne
    refine ⟨(moveUnitsAux_fst _ _ _ _ _).mpr (Or.inr ⟨hmem, hb⟩), ?_⟩
    intro hcontra
    rcases (moveUnitsAux_snd _ _ _ _ _).mp hcontra with h | ⟨_, hbt⟩
    · simp at h
    · rw [hb] at hbt; cases hbt
  · rintro ⟨hc, hsha⟩
    have hb : (corpus_directory.contains name && is_sha1_hash name) = true := by
      rw [Bool.and_eq_true]
      exact ⟨List.elem_eq_true_of_mem hc, hsha⟩
    exact ⟨(moveUnitsAux_fst _ _ _ _ _).mpr (Or.inl hc),
           (moveUnitsAux_snd _ _ _ _ _).mpr (Or.inr ⟨hmem, hb⟩)⟩

/-- C6 witness: the theorem applied to a merge directory holding one fresh
unit and one already hashed survivor. -/
theorem move_mergeable_units_correct_witness :
    ("a" ∈ ["a", hex40]) ∧
    ((¬ ("a" ∈ [hex40] ∧ is_sha1_hash "a" = true) →
      "a" ∈ (move_mergeable_units ["a", hex40] [hex40]).1 ∧
      "a" ∉ (move_mergeable_units ["a", hex40] [hex40]).2) ∧
    ("a" ∈ [hex40] ∧ is_sha1_hash "a" = true →
      "a" ∈ (move_mergeable_units ["a", hex40] [hex40]).1 ∧
      "a" ∈ (move_mergeable_units ["a", hex40] [hex40]).2)) :=
  ⟨by decide, move_mergeable_units_correct ["a", hex40] [hex40] "a" (by decide)⟩

/-! ### C10: the progression task on an already closed test case -/

/-- C10: when the fixed field of the test case is already set,
find_fixed_range returns immediately: no reproduction trial runs, no task
is enqueued, nothing is written to the analytics sink, and the test case
is returned unchanged. -/
theorem progression_skip_when_fixed (w : ProgWorld) (tc : Testcase) (fuel : Nat)
    (h : tc.fixed ≠ FixedStatus.notFixed) :
    find_fixed_range w tc fuel =
      { tc := tc, eff := noEffects, revList := w.revisionList, minIdx := 0, maxIdx := 0,
        raised := none } := by
  unfold find_fixed_range
  rw [if_pos h]

/-- C10 witness: the skip theorem applied to a closed test case. -/
theorem progression_skip_when_fixed_witness :
    (tcYes.fixed ≠ FixedStatus.notFixed) ∧
    find_fixed_range wStill tcYes 5 =
      { tc := tcYes, eff := noEffects, revList := wStill.revisionList, minIdx := 0, maxIdx := 0,
        raised := none } :=
  ⟨by decide, progression_skip_when_fixed wStill tcYes 5 (by decide)⟩

/-! ### C1: bisection commit correctness -/

theorem commitSound_of_fixed_eq (w : ProgWorld) (r : RunResult)
    (h : r.tc.fixed = FixedStatus.notFixed) : commitSound w r := by
  intro a b hab
  rw [h] at hab
  exact FixedStatus.noConfusion hab

theorem update_metadata_fixed (now : Nat) (tc : Testcase) (revision : Nat) (c : Bool) :
    (_update_completion_metadata now tc revision c).fixed = tc.fixed := by
  unfold _update_completion_metadata _clear_progression_pending
  cases c <;> by_cases ho : tc.isOpen <;> simp [ho]

theorem mark_flaky_fixed (tc : Testcase) (b : Bool) :
    (mark_unreproducible_if_flaky tc b).fixed = tc.fixed := rfl

theorem getD_eraseIdx_of_lt : ∀ (l : List Nat) (i j : Nat), j < i →
    (l.eraseIdx i).getD j 0 = l.getD j 0 := by
  intro l
  induction l with
  | nil => intro i j _; simp [List.eraseIdx]
  | cons a t ih =>
    intro i j hj
    cases i with
    | zero => omega
    | succ i' =>
      cases j with
      | zero => rfl
      | succ j' => exact ih i' j' (by omega)

theorem getD_eraseIdx_of_ge : ∀ (l : List Nat) (i j : Nat), i ≤ j →
    (l.eraseIdx i).getD j 0 = l.getD (j + 1) 0 := by
  intro l
  induction l with
  | nil => intro i j _; simp [List.eraseIdx]
  | cons a t ih =>
    intro i j hij
    cases i with
    | zero => rfl
    | succ i' =>
      cases j with
      | zero => omega
      | succ j' => exact ih i' j' (by omega)

theorem length_eraseIdx_of_lt : ∀ (l : List Nat) (i : Nat), i < l.length →
    (l.eraseIdx i).length = l.length - 1 := by
  intro l
  induction l with
  | nil => intro i h; simp at h
  | cons a t ih =>
    intro i h
    cases i with
    | zero => rfl
    | succ i' =>
      have ht : i' < t.length := by simpa using h
      show (t.eraseIdx i').length + 1 = t.length + 1 - 1
      rw [ih i' ht]
      omega

theorem findRevisionIndex_spec : ∀ (l : List Nat) (r i : Nat),
    findRevisionIndex l r = some i → i < l.length ∧ l.getD i 0 = r := by
  intro l
  induction l with
  | nil => intro r i h; exact absurd h (by simp [findRevisionIndex])
  | cons v rest ih =>
    intro r i h
    unfold findRevisionIndex at h
    by_cases hv : v = r
    · rw [if_pos hv] at h
      cases h
      exact ⟨by simp, hv⟩
    · rw [if_neg hv] at h
      rcases Option.map_eq_some'.mp h with ⟨j, hj, hji⟩
      rcases ih r j hj with ⟨hjl, hjd⟩
      subst hji
      exact ⟨by simpa using hjl, hjd⟩

theorem bisect_commit_sound (w : ProgWorld) :
    ∀ (fuel : Nat) (tc : Testcase) (eff : Effects) (L : List Nat) (minI maxI : Nat),
      tc.fixed = FixedStatus.notFixed →
      (maxI ≤ minI ∨
        (minI < maxI ∧ maxI < L.length ∧
         w.trial (L.getD minI 0) = TrialOutcome.ran true ∧
         w.trial (L.getD maxI 0) = TrialOutcome.ran false)) →
      commitSound w (bisect w tc eff L minI maxI fuel) := by
  intro fuel
  induction fuel with
  | zero =>
    intro tc eff L minI maxI hfix _
    exact commitSound_of_fixed_eq w _ (by simpa [bisect] using hfix)
  | succ fuel ih =>
    intro tc eff L minI maxI hfix hinv
    by_cases hadj : maxI - minI = 1
    · -- commit branch
      have hb : bisect w tc eff L minI maxI (fuel + 1) =
          { tc := _update_completion_metadata w.now
              { tc with fixed := FixedStatus.range (L.getD minI 0) (L.getD maxI 0), isOpen := false }
              (L.getD maxI 0) false,
            eff := { eff with bigquery := eff.bigquery ++ [(L.getD minI 0, L.getD maxI 0)] },
            revList := L, minIdx := minI, maxIdx := maxI, raised := none } := by
        unfold bisect
        rw [if_pos hadj]
      intro a b hab
      rw [hb] at hab ⊢
      dsimp only at hab ⊢
      rw [update_metadata_fixed] at hab
      have hax : L.getD minI 0 = a ∧ L.getD maxI 0 = b := by
        have := hab
        simp only [FixedStatus.range.injEq] at this
        exact this
      rcases hinv with hle | ⟨h1, h2, h3, h4⟩
      · omega
      · refine ⟨hax.1 ▸ h3, hax.2 ▸ h4, by omega, h2, hax.1, hax.2⟩
    · -- loop body
      have hb : bisect w tc eff L minI maxI (fuel + 1) =
          (match w.trial (L.getD ((minI + maxI) / 2) 0) with
          | TrialOutcome.buildFail =>
            { tc := tc, eff := addTrial eff (L.getD ((minI + maxI) / 2) 0), revList := L,
              minIdx := minI, maxIdx := maxI,
              raised := some (ProgError.buildSetup (L.getD ((minI + maxI) / 2) 0)) }
          | TrialOutcome.badBuild =>
            bisect w tc (addTrial eff (L.getD ((minI + maxI) / 2) 0))
              (L.eraseIdx ((minI + maxI) / 2)) minI (maxI - 1) fuel
          | TrialOutcome.ran isCrash =>
            bisect w
              { tc with
                last_progression_min :=
                  some (L.getD (if isCrash then (minI + maxI) / 2 else minI) 0),
                last_progression_max :=
                  some (L.getD (if isCrash then maxI else (minI + maxI) / 2) 0) }
              (addTrial eff (L.getD ((minI + maxI) / 2) 0)) L
              (if isCrash then (minI + maxI) / 2 else minI)
              (if isCrash then maxI else (minI + maxI) / 2) fuel) := by
        conv_lhs => unfold bisect
        dsimp only
        rw [if_neg hadj]
      rw [hb]
      cases htr : w.trial (L.getD ((minI + maxI) / 2) 0) with
      | buildFail => exact commitSound_of_fixed_eq w _ hfix
      | badBuild =>
        dsimp only
        apply ih tc _ _ minI (maxI - 1) hfix
        rcases hinv with hle | ⟨h1, h2, h3, h4⟩
        · left; omega
        · right
          have hge2 : minI + 2 ≤ maxI := by omega
          have hmid1 : minI < (minI + maxI) / 2 := by omega
          have hmid2 : (minI + maxI) / 2 < maxI := by omega
          have hrange : (minI + maxI) / 2 < L.length := by omega
          refine ⟨by omega, ?_, ?_, ?_⟩
          · rw [length_eraseIdx_of_lt L _ hrange]; omega
          · rw [getD_eraseIdx_of_lt L _ _ hmid1]; exact h3
          · rw [getD_eraseIdx_of_ge L _ _ (by omega)]
            have hmx : maxI - 1 + 1 = maxI := by omega
            rw [hmx]; exact h4
      | ran isCrash =>
        dsimp only
        refine ih _ _ _ _ _ hfix ?_
        cases isCrash with
        | true =>
          show maxI ≤ (minI + maxI) / 2 ∨
            ((minI + maxI) / 2 < maxI ∧ maxI < L.length ∧
             w.trial (L.getD ((minI + maxI) / 2) 0) = TrialOutcome.ran true ∧
             w.trial (L.getD maxI 0) = TrialOutcome.ran false)
          rcases hinv with hle | ⟨h1, h2, h3, h4⟩
          · left; omega
          · right
            have hge2 : minI + 2 ≤ maxI := by omega
            exact ⟨by omega, h2, htr, h4⟩
        | false =>
          show (minI + maxI) / 2 ≤ minI ∨
            (minI < (minI + maxI) / 2 ∧ (minI + maxI) / 2 < L.length ∧
             w.trial (L.getD minI 0) = TrialOutcome.ran true ∧
             w.trial (L.getD ((minI + maxI) / 2) 0) = TrialOutcome.ran false)
          rcases hinv with hle | ⟨h1, h2, h3, h4⟩
          · left; omega
          · right
            have hge2 : minI + 2 ≤ maxI := by omega
            exact ⟨by omega, by omega, h3, htr⟩




theorem custom_binary_fixed_cases (w : ProgWorld) (tc : Testcase) :
    (_check_fixed_for_custom_binary w tc).tc.fixed = tc.fixed ∨
    (_check_fixed_for_custom_binary w tc).tc.fixed = FixedStatus.yes := by
  unfold _check_fixed_for_custom_binary is_first_retry_for_task
  split
  · left; rfl
  · split
    · left
      rw [update_metadata_fixed]
    · split
      · rename_i x tc2 heq
        left
        rw [update_metadata_fixed]
        split at heq
        · simp at heq
        · simp only [Prod.mk.injEq] at heq
          rcases heq with ⟨-, rfl⟩
          rfl
      · right
        rw [update_metadata_fixed]


theorem find_fixed_range_commit_sound (w : ProgWorld) (tc0 : Testcase) (fuel : Nat)
    (hfix : tc0.fixed = FixedStatus.notFixed) :
    commitSound w (find_fixed_range w tc0 fuel) := by
  unfold find_fixed_range
  rw [if_neg (not_not_intro hfix)]
  split
  · exact commitSound_of_fixed_eq w _ hfix
  · split
    · rcases custom_binary_fixed_cases w { tc0 with progression_pending := true } with hh | hh
      · intro a b hab
        rw [hab] at hh
        exact FixedStatus.noConfusion (hfix ▸ hh.symm)
      · intro a b hab
        rw [hab] at hh
        exact FixedStatus.noConfusion hh
    · split
      · exact commitSound_of_fixed_eq w _ hfix
      · dsimp only
        split
        · exact commitSound_of_fixed_eq w _ hfix
        · rename_i xm minI hfi
          split
          · exact commitSound_of_fixed_eq w _ hfix
          · rename_i xM maxI hfa
            split
            · exact commitSound_of_fixed_eq w _ hfix
            · exact commitSound_of_fixed_eq w _ hfix
            · -- the crash still reproduces at the max revision
              apply commitSound_of_fixed_eq w
              dsimp only
              rw [mark_flaky_fixed, update_metadata_fixed]
              exact hfix
            · -- no crash at the max revision
              rename_i xT htmax
              split
              · exact commitSound_of_fixed_eq w _ hfix
              · exact commitSound_of_fixed_eq w _ hfix
              · -- no crash at the min revision either
                unfold is_first_retry_for_task
                split
                · rename_i xp tc2 heq
                  apply commitSound_of_fixed_eq w
                  dsimp only
                  rw [update_metadata_fixed]
                  split at heq
                  · simp at heq
                  · simp only [Prod.mk.injEq] at heq
                    rcases heq with ⟨-, rfl⟩
                    exact hfix
                · rename_i xp tc2 heq
                  apply commitSound_of_fixed_eq w
                  dsimp only
                  rw [mark_flaky_fixed]
                  split at heq
                  · simp only [Prod.mk.injEq] at heq
                    rcases heq with ⟨-, rfl⟩
                    exact hfix
                  · simp at heq
              · -- crash at the min revision: enter the bisection loop
                rename_i xt htmin
                refine bisect_commit_sound w fuel _ _ _ minI maxI hfix ?_
                rcases findRevisionIndex_spec _ _ _ hfi with ⟨hminl, hmind⟩
                rcases findRevisionIndex_spec _ _ _ hfa with ⟨hmaxl, hmaxd⟩
                by_cases hord : minI < maxI
                · right
                  refine ⟨hord, hmaxl, ?_, ?_⟩
                  · rw [hmind]
                    exact htmin
                  · rw [hmaxd]
                    exact htmax
                · left
                  omega

/-- C1: whenever find_fixed_range, started on a test case without a fixed
range, terminates by committing a fixed range a:b, the crash reproduces at
revision a, does not reproduce at revision b, and a and b occupy adjacent
indices of the working revision list, after any bad build removals, at the
moment of commit. -/
theorem bisection_commit_correct (w : ProgWorld) (tc0 : Testcase) (fuel : Nat) (a b : Nat)
    (hfix : tc0.fixed = FixedStatus.notFixed)
    (hcommit : (find_fixed_range w tc0 fuel).tc.fixed = FixedStatus.range a b) :
    w.trial a = TrialOutcome.ran true ∧ w.trial b = TrialOutcome.ran false ∧
    (find_fixed_range w tc0 fuel).maxIdx = (find_fixed_range w tc0 fuel).minIdx + 1 ∧
    (find_fixed_range w tc0 fuel).maxIdx < (find_fixed_range w tc0 fuel).revList.length ∧
    (find_fixed_range w tc0 fuel).revList.getD ((find_fixed_range w tc0 fuel).minIdx) 0 = a ∧
    (find_fixed_range w tc0 fuel).revList.getD ((find_fixed_range w tc0 fuel).maxIdx) 0 = b :=
  find_fixed_range_commit_sound w tc0 fuel hfix a b hcommit

/-- C1 witness: the commit theorem applied to the five revision scenario,
where the range 120:130 is committed. -/
theorem bisection_commit_correct_witness :
    (tcFresh.fixed = FixedStatus.notFixed ∧
     (find_fixed_range wS3 tcFresh 10).tc.fixed = FixedStatus.range 120 130) ∧
    (wS3.trial 120 = TrialOutcome.ran true ∧ wS3.trial 130 = TrialOutcome.ran false ∧
     (find_fixed_range wS3 tcFresh 10).maxIdx = (find_fixed_range wS3 tcFresh 10).minIdx + 1 ∧
     (find_fixed_range wS3 tcFresh 10).maxIdx < (find_fixed_range wS3 tcFresh 10).revList.length ∧
     (find_fixed_range wS3 tcFresh 10).revList.getD ((find_fixed_range wS3 tcFresh 10).minIdx) 0 = 120 ∧
     (find_fixed_range wS3 tcFresh 10).revList.getD ((find_fixed_range wS3 tcFresh 10).maxIdx) 0 = 130) :=
  ⟨⟨by decide, by decide⟩,
   bisection_commit_correct wS3 tcFresh 10 120 130 (by decide) (by decide)⟩

/-! ### C4: stats after merge back -/

theorem lookupStat_setStat_same : ∀ (m : StatsMap) (k : String) (v : Int),
    lookupStat (setStat m k v) k = some v := by
  intro m k v
  induction m with
  | nil => simp [setStat, lookupStat]
  | cons p rest ih =>
    unfold setStat
    by_cases h : p.1 = k
    · rw [if_pos h]
      simp [lookupStat]
    · rw [if_neg h]
      unfold lookupStat
      rw [if_neg h]
      exact ih

theorem lookupStat_setStat_ne : ∀ (m : StatsMap) (k k' : String) (v : Int), k' ≠ k →
    lookupStat (setStat m k' v) k = lookupStat m k := by
  intro m k k' v hne
  induction m with
  | nil => simp [setStat, lookupStat, hne]
  | cons p rest ih =>
    unfold setStat
    by_cases h : p.1 = k'
    · rw [if_pos h]
      unfold lookupStat
      rw [if_neg hne, if_neg (h ▸ hne)]
    · rw [if_neg h]
      unfold lookupStat
      by_cases h2 : p.1 = k
      · rw [if_pos h2, if_pos h2]
      · rw [if_neg h2, if_neg h2]
        exact ih

theorem mem_setStat : ∀ (m : StatsMap) (k : String) (v : Int) (p : String × Int),
    p ∈ setStat m k v → p = (k, v) ∨ p ∈ m := by
  intro m k v p
  induction m with
  | nil => intro hp; simp [setStat] at hp; exact Or.inl hp
  | cons q rest ih =>
    unfold setStat
    by_cases h : q.1 = k
    · rw [if_pos h]
      intro hp
      rcases List.mem_cons.mp hp with h' | h'
      · exact Or.inl h'
      · exact Or.inr (List.mem_cons_of_mem _ h')
    · rw [if_neg h]
      intro hp
      rcases List.mem_cons.mp hp with h' | h'
      · exact Or.inr (h' ▸ List.mem_cons_self _ _)
      · rcases ih h' with h'' | h''
        · exact Or.inl h''
        · exact Or.inr (List.mem_cons_of_mem _ h'')

theorem lookupStat_updateStats_ne : ∀ (patch m : StatsMap) (k : String),
    (∀ p ∈ patch, p.1 ≠ k) → lookupStat (updateStats m patch) k = lookupStat m k := by
  intro patch
  induction patch with
  | nil => intro m k _; rfl
  | cons q rest ih =>
    intro m k hk
    unfold updateStats at ih ⊢
    rw [List.foldl_cons]
    rw [ih (setStat m q.1 q.2) k (fun p hp => hk p (List.mem_cons_of_mem _ hp))]
    exact lookupStat_setStat_ne m k q.1 q.2 (hk q (List.mem_cons_self _ _))

theorem mem_ite_setStat (c : Prop) [Decidable c] (m : StatsMap) (k : String) (v : Int)
    (p : String × Int) (hp : p ∈ (if c then setStat m k v else m)) : p = (k, v) ∨ p ∈ m := by
  split at hp
  · exact mem_setStat m k v p hp
  · exact Or.inr hp

theorem perf_keys (log_lines : List (List Char)) :
    ∀ p ∈ parse_performance_features log_lines,
      p.1 = "crash_count" ∨ p.1 = "oom_count" ∨ p.1 = "timeout_count" := by
  intro p hp
  unfold parse_performance_features at hp
  dsimp only at hp
  rcases mem_ite_setStat _ _ _ _ _ hp with h3 | hp2
  · exact Or.inr (Or.inr (by rw [h3]))
  · rcases mem_ite_setStat _ _ _ _ _ hp2 with h2 | hp1
    · exact Or.inr (Or.inl (by rw [h2]))
    · rcases mem_ite_setStat _ _ _ _ _ hp1 with h1 | hp0
      · exact Or.inl (by rw [h1])
      · simp at hp0

theorem mergeLogStep_keys (m : StatsMap) (line : List Char) (p : String × Int)
    (hp : p ∈ mergeLogStep m line) : strStartsWith p.1 "merge_" = true ∨ p ∈ m := by
  unfold mergeLogStep at hp
  cases hline : parse_stat_line line with
  | none => rw [hline] at hp; exact Or.inr hp
  | some nv =>
    rw [hline] at hp
    cases nv with
    | mk name value =>
      dsimp only at hp
      by_cases hc : (strStartsWith name "merge_" && value.all Char.isDigit) = true
      · rw [if_pos hc] at hp
        rcases mem_setStat _ _ _ _ hp with h | h
        · left
          rw [h]
          exact (Bool.and_eq_true _ _ |>.mp hc).1
        · exact Or.inr h
      · rw [if_neg hc] at hp
        exact Or.inr hp

theorem mergeLog_keys (log_lines : List (List Char)) :
    ∀ p ∈ parse_stats_from_merge_log log_lines, strStartsWith p.1 "merge_" = true := by
  unfold parse_stats_from_merge_log
  have haux : ∀ (lines : List (List Char)) (m0 : StatsMap),
      (∀ p ∈ m0, strStartsWith p.1 "merge_" = true) →
      ∀ p ∈ lines.foldl mergeLogStep m0, strStartsWith p.1 "merge_" = true := by
    intro lines
    induction lines with
    | nil => intro m0 h0 p hp; exact h0 p hp
    | cons line rest ih =>
      intro m0 h0 p hp
      rw [List.foldl_cons] at hp
      refine ih (mergeLogStep m0 line) ?_ p hp
      intro q hq
      rcases mergeLogStep_keys m0 line q hq with h | h
      · exact h
      · exact h0 q h
  exact haux log_lines [] (by simp)

theorem moveInto_length (dir : List String) (name : String) :
    dir.length ≤ (moveInto dir name).length := by
  unfold moveInto
  split
  · exact le_refl _
  · simp

theorem moveUnitsAux_length (initial : List String) :
    ∀ (merge corpus skipped : List String),
      corpus.length ≤ (moveUnitsAux initial merge corpus skipped).1.length := by
  intro merge
  induction merge with
  | nil => intro corpus skipped; exact le_refl _
  | cons name rest ih =>
    intro corpus skipped
    unfold moveUnitsAux
    split
    · exact ih corpus (skipped ++ [name])
    · exact le_trans (moveInto_length corpus name) (ih (moveInto corpus name) skipped)

theorem withGenerated_eq_some (m : StatsMap) (v : Int)
    (hl : lookupStat m "new_units_added" = some v) :
    withGenerated m = setStat m "new_units_generated" v := by
  unfold withGenerated
  rw [hl]

theorem withGenerated_eq_none (m : StatsMap)
    (hl : lookupStat m "new_units_added" = none) :
    withGenerated m = m := by
  unfold withGenerated
  rw [hl]

theorem withGenerated_lookup (m : StatsMap) (g : Int)
    (h : lookupStat (withGenerated m) "new_units_added" = some g) :
    lookupStat (withGenerated m) "new_units_generated" = some g := by
  cases hl : lookupStat m "new_units_added" with
  | none =>
    rw [withGenerated_eq_none m hl] at h
    rw [hl] at h
    cases h
  | some v =>
    rw [withGenerated_eq_some m v hl] at h ⊢
    rw [lookupStat_setStat_ne m "new_units_added" "new_units_generated" v (by decide), hl] at h
    cases h
    exact lookupStat_setStat_same m "new_units_generated" _

theorem merge_new_units_lookup (w : FuzzWorld) (corpus_dir : List String) (s : StatsMap) :
    (∃ v, lookupStat (merge_new_units w corpus_dir s).1 "new_units_added" = some v ∧ 0 ≤ v) ∧
    (∀ k, k ≠ "new_units_added" →
      (∀ p ∈ parse_stats_from_merge_log w.mergeLogLines, p.1 ≠ k) →
      lookupStat (merge_new_units w corpus_dir s).1 k = lookupStat s k) := by
  unfold merge_new_units
  constructor
  · split
    · exact ⟨0, lookupStat_setStat_same _ _ _, le_refl 0⟩
    · split
      · exact ⟨0, lookupStat_setStat_same _ _ _, le_refl 0⟩
      · dsimp only
        refine ⟨_, lookupStat_setStat_same _ _ _, ?_⟩
        have hlen : corpus_dir.length ≤ (move_mergeable_units w.mergedFiles corpus_dir).1.length :=
          moveUnitsAux_length _ _ _ _
        have : (corpus_dir.length : Int) ≤ ((move_mergeable_units w.mergedFiles corpus_dir).1.length : Int) := by
          exact_mod_cast hlen
        omega
  · intro k hk hkm
    split
    · exact lookupStat_setStat_ne _ _ _ _ (fun he => hk he.symm)
    · split
      · exact lookupStat_setStat_ne _ _ _ _ (fun he => hk he.symm)
      · dsimp only
        rw [lookupStat_setStat_ne _ _ _ _ (fun he => hk he.symm)]
        split
        · rfl
        · exact lookupStat_updateStats_ne _ _ _ hkm

theorem fuzz_eq_some (w : FuzzWorld) (corpus_dir arguments : List String) (tl : Nat)
    (hext : (extract_argument_value arguments TIMEOUT_FLAG).bind parseNatOpt = some tl) :
    fuzz w corpus_dir arguments = some
      { crashes := match w.logLines.findSome? crashPath with
          | some p => [{ input_path := p, reproduce_args := remove_fuzzing_arguments arguments }]
          | none => [],
        stats := (merge_new_units w corpus_dir (sessionStats w tl)).1,
        corpus := (merge_new_units w corpus_dir (sessionStats w tl)).2 } := by
  unfold fuzz
  rw [hext]

theorem sessionStats_lookup_generated (w : FuzzWorld) (tl : Nat) (g : Int)
    (hg : lookupStat (parse_log_stats w.logLines) "new_units_added" = some g) :
    lookupStat (sessionStats w tl) "new_units_generated" = some g := by
  unfold sessionStats
  dsimp only
  rw [lookupStat_setStat_ne _ _ _ _ (by decide)]
  rw [lookupStat_setStat_ne _ _ _ _ (by decide)]
  rw [lookupStat_setStat_ne _ _ _ _ (by decide)]
  rw [lookupStat_setStat_ne _ _ _ _ (by decide)]
  rw [lookupStat_updateStats_ne _ _ _ ?hperf]
  case hperf =>
    intro p hp
    rcases perf_keys w.logLines p hp with h | h | h <;> (rw [h]; decide)
  exact withGenerated_lookup _ g hg

/-- C4 amended: in every completed fuzz session the final stats hold a non
negative new_units_added, the change of the primary corpus file count; and
whenever the engine log carried a stat line for new_units_added, its pre
merge value is preserved unchanged under new_units_generated.  The claimed
bound of new_units_added by new_units_generated does not hold: the merge
can move units contributed by the additional corpus directories. -/
theorem merged_stats_bounds (w : FuzzWorld) (corpus_dir arguments : List String)
    (r : FuzzSessionResult) (h : fuzz w corpus_dir arguments = some r) :
    (∃ v, lookupStat r.stats "new_units_added" = some v ∧ 0 ≤ v) ∧
    (∀ g, lookupStat (parse_log_stats w.logLines) "new_units_added" = some g →
      lookupStat r.stats "new_units_generated" = some g) := by
  cases hext : (extract_argument_value arguments TIMEOUT_FLAG).bind parseNatOpt with
  | none =>
    unfold fuzz at h
    rw [hext] at h
    cases h
  | some tl =>
    have heq := (fuzz_eq_some w corpus_dir arguments tl hext).symm.trans h
    have hrec := Option.some.inj heq
    subst hrec
    constructor
    · exact (merge_new_units_lookup w corpus_dir (sessionStats w tl)).1
    · intro g hg
      have h2 := (merge_new_units_lookup w corpus_dir (sessionStats w tl)).2
        "new_units_generated" (by decide)
        (fun p hp heq2 => by
          have hs := mergeLog_keys w.mergeLogLines p hp
          rw [heq2] at hs
          exact absurd hs (by decide))
      show lookupStat (merge_new_units w corpus_dir (sessionStats w tl)).1 "new_units_generated" = some g
      rw [h2]
      exact sessionStats_lookup_generated w tl g hg

/-- C4 witness: the stats theorem applied to the quiet session. -/
theorem merged_stats_bounds_witness :
    (fuzz cw4w [] ["-timeout=1"] = some cw4wResult) ∧
    ((∃ v, lookupStat cw4wResult.stats "new_units_added" = some v ∧ 0 ≤ v) ∧
     (∀ g, lookupStat (parse_log_stats cw4w.logLines) "new_units_added" = some g →
       lookupStat cw4wResult.stats "new_units_generated" = some g)) :=
  ⟨by decide, merged_stats_bounds cw4w [] ["-timeout=1"] cw4wResult (by decide)⟩

/-! ### C5: crash path extraction -/

theorem containsSub_append_right (pat : List Char) : ∀ (a b : List Char),
    containsSub pat b = true → containsSub pat (a ++ b) = true := by
  intro a
  induction a with
  | nil => intro b h; exact h
  | cons c t ih =>
    intro b h
    show (pat.isPrefixOf (c :: (t ++ b)) || containsSub pat (t ++ b)) = true
    rw [ih b h]
    simp

theorem hasTokenDash_append (a b : List Char) (h : hasTokenDash b = true) :
    hasTokenDash (a ++ b) = true := by
  unfold hasTokenDash at h ⊢
  rcases List.any_eq_true.mp h with ⟨t, ht, htt⟩
  exact List.any_eq_true.mpr ⟨t, ht, containsSub_append_right t a b htt⟩

theorem drop_len_append : ∀ (pre rest : List Char) (n : Nat),
    (pre ++ rest).drop (pre.length + n) = rest.drop n := by
  intro pre
  induction pre with
  | nil => intro rest n; simp
  | cons c t ih =>
    intro rest n
    have harith : (c :: t).length + n = (t.length + n) + 1 := by
      simp [List.length_cons]
      omega
    rw [harith]
    show (c :: (t ++ rest)).drop ((t.length + n) + 1) = rest.drop n
    rw [List.drop_succ_cons]
    exact ih rest n

theorem dropWhile_all_append (f : Char → Bool) : ∀ (ws p : List Char),
    (∀ c ∈ ws, f c = true) → (ws ++ p).dropWhile f = p.dropWhile f := by
  intro ws
  induction ws with
  | nil => intro p _; rfl
  | cons c t ih =>
    intro p h
    show List.dropWhile f (c :: (t ++ p)) = p.dropWhile f
    rw [List.dropWhile_cons]
    rw [h c (List.mem_cons_self _ _)]
    simp only [if_true]
    exact ih p (fun x hx => h x (List.mem_cons_of_mem _ hx))

theorem crashPath_of_unique (pre ws path : List Char)
    (hpos : litMatchPositions (pre ++ crashLit ++ ws ++ path) = [pre.length])
    (hws : ∀ c ∈ ws, isWsChar c = true)
    (hpath : path.dropWhile isWsChar = path)
    (htok : hasTokenDash path = true) :
    crashPath (pre ++ crashLit ++ ws ++ path) = some path := by
  have hdrop : (pre ++ crashLit ++ ws ++ path).drop (pre.length + crashLit.length) = ws ++ path := by
    have h1 : pre ++ crashLit ++ ws ++ path = pre ++ (crashLit ++ (ws ++ path)) := by
      simp [List.append_assoc]
    rw [h1, drop_len_append pre (crashLit ++ (ws ++ path)) crashLit.length]
    have h2 := drop_len_append crashLit (ws ++ path) 0
    simp only [Nat.add_zero, List.drop_zero] at h2
    exact h2
  unfold crashPath
  rw [hpos]
  have hcond : hasTokenDash ((pre ++ crashLit ++ ws ++ path).drop (pre.length + crashLit.length)) = true := by
    rw [hdrop]
    exact hasTokenDash_append ws path htok
  rw [List.filter_cons]
  rw [hcond]
  simp only [if_true, List.filter_nil, List.getLast?_singleton]
  rw [hdrop, dropWhile_all_append isWsChar ws path hws, hpath]

theorem containsSub_of_isPrefixOf_drop (pat : List Char) : ∀ (l : List Char) (i : Nat),
    pat.isPrefixOf (l.drop i) = true → containsSub pat l = true := by
  intro l
  induction l with
  | nil =>
    intro i h
    unfold containsSub
    cases i <;> simp at h <;> simp [h]
  | cons c rest ih =>
    intro i h
    cases i with
    | zero =>
      unfold containsSub
      rw [List.drop_zero] at h
      rw [h]
      simp
    | succ i' =>
      unfold containsSub
      rw [List.drop_succ_cons] at h
      rw [ih i' h]
      simp

theorem crashPath_none_of_no_lit (line : List Char) (h : containsSub crashLit line = false) :
    crashPath line = none := by
  have hpos : litMatchPositions line = [] := by
    unfold litMatchPositions
    rw [List.filter_eq_nil_iff]
    intro i _
    intro hpre
    rw [containsSub_of_isPrefixOf_drop crashLit line i hpre] at h
    cases h
  unfold crashPath
  rw [hpos]
  rfl

theorem findSome?_append_none {α β : Type} (f : α → Option β) : ∀ (l1 l2 : List α),
    (∀ x ∈ l1, f x = none) → (l1 ++ l2).findSome? f = l2.findSome? f := by
  intro l1
  induction l1 with
  | nil => intro l2 _; rfl
  | cons a rest ih =>
    intro l2 h
    show List.findSome? f (a :: (rest ++ l2)) = _
    rw [List.findSome?_cons]
    rw [h a (List.mem_cons_self _ _)]
    exact ih l2 (fun x hx => h x (List.mem_cons_of_mem _ hx))

/-- C5 amended: for a log whose single crash line carries the literal at
exactly one position, followed by whitespace and a path that contains one
of the crash, oom, timeout or leak markers with a dash, fuzz returns
exactly one crash record whose input path is the whole remainder of that
line; and for a log with no crash line literal at all the crash list is
empty.  The path is not terminated at whitespace, and a path without one
of the markers yields no crash, contrary to the claim. -/
theorem crash_extraction :
    (∀ (w : FuzzWorld) (corpus_dir arguments : List String) (tl : Nat)
       (before after : List (List Char)) (pre ws path : List Char),
      (extract_argument_value arguments TIMEOUT_FLAG).bind parseNatOpt = some tl →
      w.logLines = before ++ (pre ++ crashLit ++ ws ++ path) :: after →
      (∀ l ∈ before, crashPath l = none) →
      litMatchPositions (pre ++ crashLit ++ ws ++ path) = [pre.length] →
      (∀ c ∈ ws, isWsChar c = true) →
      path.dropWhile isWsChar = path →
      hasTokenDash path = true →
      ∃ r, fuzz w corpus_dir arguments = some r ∧
        r.crashes.map EngineCrash.input_path = [path]) ∧
    (∀ (w : FuzzWorld) (corpus_dir arguments : List String) (tl : Nat),
      (extract_argument_value arguments TIMEOUT_FLAG).bind parseNatOpt = some tl →
      (∀ l ∈ w.logLines, containsSub crashLit l = false) →
      ∃ r, fuzz w corpus_dir arguments = some r ∧ r.crashes = []) := by
  constructor
  · intro w corpus_dir arguments tl before after pre ws path hext hlines hbefore hpos hws hpath htok
    refine ⟨_, fuzz_eq_some w corpus_dir arguments tl hext, ?_⟩
    have hcp := crashPath_of_unique pre ws path hpos hws hpath htok
    have hfind : w.logLines.findSome? crashPath = some path := by
      rw [hlines, findSome?_append_none crashPath before _ hbefore, List.findSome?_cons, hcp]
    show (match w.logLines.findSome? crashPath with
          | some p =>
            [{ input_path := p, reproduce_args := remove_fuzzing_arguments arguments : EngineCrash }]
          | none => ([] : List EngineCrash)).map EngineCrash.input_path = [path]
    rw [hfind]
    rfl
  · intro w corpus_dir arguments tl hext hno
    refine ⟨_, fuzz_eq_some w corpus_dir arguments tl hext, ?_⟩
    have hfind : w.logLines.findSome? crashPath = none := by
      rw [List.findSome?_eq_none_iff]
      intro l hl
      exact crashPath_none_of_no_lit l (hno l hl)
    show (match w.logLines.findSome? crashPath with
          | some p =>
            [{ input_path := p, reproduce_args := remove_fuzzing_arguments arguments : EngineCrash }]
          | none => ([] : List EngineCrash)) = []
    rw [hfind]

/-- C5 witness: the extraction theorem applied to a one line log. -/
theorem crash_extraction_witness :
    ((extract_argument_value ["-timeout=25"] TIMEOUT_FLAG).bind parseNatOpt = some 25 ∧
     cw5w.logLines = [] ++ (([] : List Char) ++ crashLit ++ " ".toList ++ "./crash-1".toList) :: [] ∧
     litMatchPositions (([] : List Char) ++ crashLit ++ " ".toList ++ "./crash-1".toList) =
       [List.length ([] : List Char)] ∧
     hasTokenDash ("./crash-1".toList) = true) ∧
    (∃ r, fuzz cw5w [] ["-timeout=25"] = some r ∧
      r.crashes.map EngineCrash.input_path = ["./crash-1".toList]) :=
  ⟨⟨by decide, by decide, by decide, by decide⟩,
   crash_extraction.1 cw5w [] ["-timeout=25"] 25 [] [] [] (" ".toList) ("./crash-1".toList)
     (by decide) (by decide) (by decide) (by decide) (by decide) (by decide) (by decide)⟩

/-! ### C2 and C3: the two guards of the progression task -/

/-- C2 amended: when the crash still reproduces at the max revision,
find_fixed_range returns after that single trial without touching the
bisection loop or the fixed range; the test case is updated with the
refreshed stacktrace, the last tested revision and last tested crash
metadata, the cleared progression pending marker and the cleared
potentially flaky state, plus the closed time stamp when the case is not
open; crash info is saved and no task is enqueued. -/
theorem still_crashing_updates (w : ProgWorld) (tc0 : Testcase) (fuel : Nat) (minI maxI : Nat)
    (hfix : tc0.fixed = FixedStatus.notFixed)
    (hsetup : w.setupOk = true)
    (hcustom : w.isCustomBinary = false)
    (hne : w.revisionList ≠ [])
    (hmin : findRevisionIndex w.revisionList (progMinRevision tc0) = some minI)
    (hmax : findRevisionIndex w.revisionList (progMaxRevision w tc0) = some maxI)
    (hcrash : w.trial (progMaxRevision w tc0) = TrialOutcome.ran true) :
    find_fixed_range w tc0 fuel =
      { tc := { tc0 with
          progression_pending := false,
          last_tested_crash_stacktrace := some (w.stacktrace (progMaxRevision w tc0)),
          last_tested_revision := some (progMaxRevision w tc0),
          last_tested_crash_revision := some (progMaxRevision w tc0),
          last_tested_crash_time := some w.now,
          potentially_flaky := false,
          closed_time := if tc0.isOpen then tc0.closed_time else some w.now },
        eff := { trials := [progMaxRevision w tc0], requeues := 0, bigquery := [],
                 savedCrashInfo := true },
        revList := w.revisionList, minIdx := 0, maxIdx := 0, raised := none } := by
  unfold find_fixed_range
  rw [if_neg (not_not_intro hfix), if_neg (by simp [hsetup]), if_neg (by simp [hcustom]),
      if_neg hne]
  simp only [progMinRevision, progKnownCrashRevision, progMaxRevision, lastRevisionInList]
    at hmin hmax hcrash ⊢
  rw [hmin, hmax, hcrash]
  unfold _update_completion_metadata _clear_progression_pending mark_unreproducible_if_flaky
    addTrial noEffects
  by_cases ho : tc0.isOpen
  · simp [ho]
  · simp [ho]

/-- C2 witness: the update theorem applied to the still crashing world. -/
theorem still_crashing_updates_witness :
    (tcFresh.fixed = FixedStatus.notFixed ∧ wStill.setupOk = true ∧
     wStill.isCustomBinary = false ∧ wStill.revisionList ≠ [] ∧
     findRevisionIndex wStill.revisionList (progMinRevision tcFresh) = some 0 ∧
     findRevisionIndex wStill.revisionList (progMaxRevision wStill tcFresh) = some 1 ∧
     wStill.trial (progMaxRevision wStill tcFresh) = TrialOutcome.ran true) ∧
    find_fixed_range wStill tcFresh 5 =
      { tc := { tcFresh with
          progression_pending := false,
          last_tested_crash_stacktrace := some (wStill.stacktrace (progMaxRevision wStill tcFresh)),
          last_tested_revision := some (progMaxRevision wStill tcFresh),
          last_tested_crash_revision := some (progMaxRevision wStill tcFresh),
          last_tested_crash_time := some wStill.now,
          potentially_flaky := false,
          closed_time := if tcFresh.isOpen then tcFresh.closed_time else some wStill.now },
        eff := { trials := [progMaxRevision wStill tcFresh], requeues := 0, bigquery := [],
                 savedCrashInfo := true },
        revList := wStill.revisionList, minIdx := 0, maxIdx := 0, raised := none } :=
  ⟨⟨by decide, by decide, by decide, by decide, by decide, by decide, by decide⟩,
   still_crashing_updates wStill tcFresh 5 0 1 (by decide) (by decide) (by decide) (by decide)
     (by decide) (by decide) (by decide)⟩

/-- C3: when the crash fails to reproduce at the min revision after not
reproducing at the max revision, the bisection loop is never entered and
no fixed range is committed; on the first such failure the task is
requeued once and the flaky state is untouched, on the second the test
case is marked potentially flaky and no task is enqueued. -/
theorem min_revision_guard (w : ProgWorld) (tc0 : Testcase) (fuel : Nat) (minI maxI : Nat)
    (hfix : tc0.fixed = FixedStatus.notFixed)
    (hsetup : w.setupOk = true)
    (hcustom : w.isCustomBinary = false)
    (hne : w.revisionList ≠ [])
    (hmin : findRevisionIndex w.revisionList (progMinRevision tc0) = some minI)
    (hmax : findRevisionIndex w.revisionList (progMaxRevision w tc0) = some maxI)
    (hmaxres : w.trial (progMaxRevision w tc0) = TrialOutcome.ran false)
    (hminres : w.trial (progMinRevision tc0) = TrialOutcome.ran false) :
    (find_fixed_range w tc0 fuel).tc.fixed = FixedStatus.notFixed ∧
    (find_fixed_range w tc0 fuel).eff.bigquery = [] ∧
    (find_fixed_range w tc0 fuel).eff.trials = [progMaxRevision w tc0, progMinRevision tc0] ∧
    (tc0.retried = false →
      (find_fixed_range w tc0 fuel).eff.requeues = 1 ∧
      (find_fixed_range w tc0 fuel).tc.potentially_flaky = tc0.potentially_flaky) ∧
    (tc0.retried = true →
      (find_fixed_range w tc0 fuel).eff.requeues = 0 ∧
      (find_fixed_range w tc0 fuel).tc.potentially_flaky = true) := by
  have hred : find_fixed_range w tc0 fuel =
      (match is_first_retry_for_task { tc0 with progression_pending := true } with
        | (true, tc2) =>
          { tc := _update_completion_metadata w.now tc2 (progMaxRevision w tc0) false,
            eff := addRequeue (addTrial (addTrial noEffects (progMaxRevision w tc0))
              (progMinRevision tc0)),
            revList := w.revisionList, minIdx := 0, maxIdx := 0, raised := none }
        | (false, tc2) =>
          { tc := mark_unreproducible_if_flaky (_clear_progression_pending tc2) true,
            eff := addTrial (addTrial noEffects (progMaxRevision w tc0)) (progMinRevision tc0),
            revList := w.revisionList, minIdx := 0, maxIdx := 0, raised := none }) := by
    unfold find_fixed_range
    rw [if_neg (not_not_intro hfix), if_neg (by simp [hsetup]), if_neg (by simp [hcustom]),
        if_neg hne]
    simp only [progMinRevision, progKnownCrashRevision, progMaxRevision, lastRevisionInList]
      at hmin hmax hmaxres hminres ⊢
    rw [hmin, hmax, hmaxres, hminres]
  rw [hred]
  unfold is_first_retry_for_task
  dsimp only
  cases hr : tc0.retried with
  | true =>
    simp only [hr]
    unfold _clear_progression_pending mark_unreproducible_if_flaky addTrial noEffects
    refine ⟨by simp [hfix], by simp, by simp, ?_, ?_⟩
    · intro h; simp [hr] at h
    · intro _; exact ⟨rfl, rfl⟩
  | false =>
    simp only [hr]
    unfold _update_completion_metadata _clear_progression_pending addTrial addRequeue noEffects
    by_cases ho : tc0.isOpen
    · simp only [ho]
      refine ⟨by simp [hfix], by simp, by simp, ?_, ?_⟩
      · intro _; exact ⟨rfl, rfl⟩
      · intro h; simp [hr] at h
    · simp only [ho]
      refine ⟨by simp [hfix], by simp, by simp, ?_, ?_⟩
      · intro _; exact ⟨rfl, rfl⟩
      · intro h; simp [hr] at h

/-- C3 witness: the guard theorem applied to the world where the crash
reproduces nowhere, on a first attempt. -/
theorem min_revision_guard_witness :
    (tcFresh.fixed = FixedStatus.notFixed ∧ wFlaky.setupOk = true ∧
     wFlaky.isCustomBinary = false ∧ wFlaky.revisionList ≠ [] ∧
     findRevisionIndex wFlaky.revisionList (progMinRevision tcFresh) = some 0 ∧
     findRevisionIndex wFlaky.revisionList (progMaxRevision wFlaky tcFresh) = some 1 ∧
     wFlaky.trial (progMaxRevision wFlaky tcFresh) = TrialOutcome.ran false ∧
     wFlaky.trial (progMinRevision tcFresh) = TrialOutcome.ran false) ∧
    ((find_fixed_range wFlaky tcFresh 5).tc.fixed = FixedStatus.notFixed ∧
    (find_fixed_range wFlaky tcFresh 5).eff.bigquery = [] ∧
    (find_fixed_range wFlaky tcFresh 5).eff.trials =
      [progMaxRevision wFlaky tcFresh, progMinRevision tcFresh] ∧
    (tcFresh.retried = false →
      (find_fixed_range wFlaky tcFresh 5).eff.requeues = 1 ∧
      (find_fixed_range wFlaky tcFresh 5).tc.potentially_flaky = tcFresh.potentially_flaky) ∧
    (tcFresh.retried = true →
      (find_fixed_range wFlaky tcFresh 5).eff.requeues = 0 ∧
      (find_fixed_range wFlaky tcFresh 5).tc.potentially_flaky = true)) :=
  ⟨⟨by decide, by decide, by decide, by decide, by decide, by decide, by decide, by decide⟩,
   min_revision_guard wFlaky tcFresh 5 0 1 (by decide) (by decide) (by decide) (by decide)
     (by decide) (by decide) (by decide) (by decide)⟩

/-! ### C2 counterexample and C4, C5 counterexamples -/

/-- C2 counterexample: on a run where the crash still reproduces at the
max revision, the final test case differs from the one the claim predicts,
because the last tested revision metadata is also updated; so the frame of
the claim is too small. -/
theorem still_crashing_frame_counterexample :
    wStill.trial (progMaxRevision wStill tcFresh) = TrialOutcome.ran true ∧
    (find_fixed_range wStill tcFresh 5).tc.fixed = FixedStatus.notFixed ∧
    (find_fixed_range wStill tcFresh 5).tc.last_tested_revision = some 140 ∧
    (find_fixed_range wStill tcFresh 5).tc ≠
      { tcFresh with
        last_tested_crash_stacktrace := some "s",
        last_tested_crash_revision := some 140,
        last_tested_crash_time := some 7,
        potentially_flaky := false } := by
  decide

/-- C4 counterexample: the engine reported one generated unit but the
merge moved three units into the primary corpus, so the final stats map
has new_units_generated strictly below new_units_added, refuting the
claimed monotonicity. -/
theorem stats_monotonicity_counterexample :
    (fuzz cw4 [] ["-timeout=25"]).map
        (fun r => (lookupStat r.stats "new_units_generated", lookupStat r.stats "new_units_added")) =
      some (some 1, some 3) ∧
    ¬ ((3 : Int) ≤ (1 : Int)) := by
  decide

/-- C5 counterexample: a log whose single crash line is well formed by the
specification wording, with path /tmp/testcase, yields an empty crash
list, because the source regex additionally requires a crash type marker
followed by a dash inside the path. -/
theorem crash_extraction_counterexample :
    spec_crash_line ("Test unit written to /tmp/testcase".toList) =
      some ("/tmp/testcase".toList) ∧
    (fuzz cw5 [] ["-timeout=25"]).map (fun r => r.crashes) = some [] := by
  decide

end ClusterFuzz
